import Mathlib

/-!
Verification development for the weekly-draw application `streamlit_app.py`.

Dates are modelled as proleptic Gregorian ordinals, exactly as Python's
`datetime.date.toordinal()`: day 1 is 0001-01-01, and `weekday` (Monday = 0)
of ordinal `n` is `(n - 1) % 7`.  String cells are modelled as `String`
(`Option String` where the pandas cell may be NA/None); the string helpers of
Python (`str.split`, `str.strip`, `int` parsing, `date.fromisoformat`,
`date.isoformat`) are implemented below by structural recursion over the
character list so that all of them evaluate inside the kernel.

The random shuffle performed by `random.shuffle` inside `draw_week` is
modelled by passing the already-shuffled pseudo list as an argument and
quantifying over all permutations of the eligible pool in the theorems.
-/

/-- Gregorian leap-year test, as in Python's `calendar.isleap`. -/
def isLeap (y : Nat) : Bool :=
  y % 4 = 0 && (y % 100 != 0 || y % 400 = 0)

/-- Number of days of month `m` (1-12) of year `y`. -/
def daysInMonth (y m : Nat) : Nat :=
  if m = 2 then (if isLeap y then 29 else 28)
  else if m = 4 ∨ m = 6 ∨ m = 9 ∨ m = 11 then 30 else 31

/-- Days in all years before year `y` (CPython `_days_before_year`). -/
def daysBeforeYear (y : Nat) : Nat :=
  365 * (y - 1) + (y - 1) / 4 - (y - 1) / 100 + (y - 1) / 400

/-- Days in year `y` before month `m` (CPython `_days_before_month`). -/
def daysBeforeMonth (y m : Nat) : Nat :=
  ((List.range (m - 1)).map (fun i => daysInMonth y (i + 1))).sum

/-- Proleptic Gregorian ordinal of the date `y-m-d`, as `date.toordinal()`. -/
def ordinalOfDate (y m d : Nat) : Nat :=
  daysBeforeYear y + daysBeforeMonth y m + d

/-- `date.weekday()` of an ordinal: Monday = 0 ... Sunday = 6. -/
def weekday (n : Nat) : Nat := (n - 1) % 7

/-- Auxiliary bounded upward search for the calendar year of an ordinal. -/
def yearOfOrdinalAux (n : Nat) : Nat → Nat → Nat
  | 0, y => y
  | fuel + 1, y => if daysBeforeYear (y + 1) < n then yearOfOrdinalAux n fuel (y + 1) else y

/-- Calendar year containing ordinal `n`: the largest `y` with
`daysBeforeYear y < n`.  The search starts just below `n / 366 + 1` and the
fuel covers the whole remaining range. -/
def yearOfOrdinal (n : Nat) : Nat :=
  yearOfOrdinalAux n (n / 365 + 2 - n / 366) (n / 366 + 1)

/-- Auxiliary month/day extraction from a 1-based day-of-year. -/
def monthDayAux (y : Nat) : Nat → Nat → Nat → Nat × Nat
  | 0, m, doy => (m, doy)
  | fuel + 1, m, doy =>
    if doy ≤ daysInMonth y m then (m, doy) else monthDayAux y fuel (m + 1) (doy - daysInMonth y m)

/-- Inverse of `ordinalOfDate`, as `date.fromordinal`. -/
def dateOfOrdinal (n : Nat) : Nat × Nat × Nat :=
  (yearOfOrdinal n, monthDayAux (yearOfOrdinal n) 11 1 (n - daysBeforeYear (yearOfOrdinal n)))

/-- Zero-padding to two digits, as the `%02d` format. -/
def pad2 (k : Nat) : String :=
  if k < 10 then "0" ++ toString k else toString k

/-- Zero-padding to four digits, as the `%04d` format. -/
def pad4 (k : Nat) : String :=
  if k < 10 then "000" ++ toString k else
  if k < 100 then "00" ++ toString k else
  if k < 1000 then "0" ++ toString k else toString k

/-- `date.isoformat()` of an ordinal: the string `YYYY-MM-DD`. -/
def isoFormat (n : Nat) : String :=
  pad4 (dateOfOrdinal n).1 ++ "-" ++ pad2 (dateOfOrdinal n).2.1 ++ "-" ++ pad2 (dateOfOrdinal n).2.2

/-- `monday_of_week` from the source: `d - timedelta(days=d.weekday())`. -/
def monday_of_week (d : Nat) : Nat := d - weekday d

/-- The seven consecutive dates of the week starting at `monday`; built by both
`draw_week` (line 138) and `_apply_edits_and_save` (line 284) of the source as
`[week_monday + timedelta(i) for i in range(7)]`. -/
def week_dates_from (monday : Nat) : List Nat :=
  (List.range 7).map (fun i => monday + i)

/-- `upcoming_week_mondays` from the source, with `today` made explicit:
`next_monday = monday_of_week(today + timedelta(days=7))` followed by
`[next_monday + timedelta(days=7*i) for i in range(n)]`. -/
def upcoming_week_mondays (n : Nat) (today : Nat) : List Nat :=
  (List.range n).map (fun i => monday_of_week (today + 7) + 7 * i)

/-- Monday of ISO week 1 of year `y` (the week containing January 4th). -/
def isoWeek1Monday (y : Nat) : Nat :=
  ordinalOfDate y 1 4 - weekday (ordinalOfDate y 1 4)

/-- `(iso_year, iso_week)` of an ordinal, as `date.isocalendar()`. -/
def isocalendarYW (n : Nat) : Nat × Nat :=
  if n < isoWeek1Monday (yearOfOrdinal n) then
    (yearOfOrdinal n - 1, (n - isoWeek1Monday (yearOfOrdinal n - 1)) / 7 + 1)
  else if isoWeek1Monday (yearOfOrdinal n + 1) ≤ n then
    (yearOfOrdinal n + 1, 1)
  else
    (yearOfOrdinal n, (n - isoWeek1Monday (yearOfOrdinal n)) / 7 + 1)

/-- `week_id_for_date` from the source: the string `f"{year}-W{week:02d}"`
built from `d.isocalendar()`. -/
def week_id_for_date (n : Nat) : String :=
  toString (isocalendarYW n).1 ++ "-W" ++ pad2 (isocalendarYW n).2

/-- Ordinal produced by `datetime.strptime(f"{year}-W{week}-1", "%Y-W%W-%w")`
for `week ≥ 1`, following CPython's `_calc_julian_from_U_or_W` with
`week_starts_Mon = True` and target weekday Monday: days are counted from the
first Monday of the calendar year, NOT from the ISO week-1 Monday. -/
def strptime_week_monday (year week : Nat) : Nat :=
  ordinalOfDate year 1 1 + (7 - weekday (ordinalOfDate year 1 1)) % 7 + 7 * (week - 1)

/-- Whitespace as stripped by Python's `str.strip()`. -/
def isSpaceChar (c : Char) : Bool :=
  c = ' ' || c = '\t' || c = '\n' || c = '\r'

/-- Strip whitespace from both ends of a character list. -/
def trimChars (l : List Char) : List Char :=
  ((l.dropWhile isSpaceChar).reverse.dropWhile isSpaceChar).reverse

/-- Python's `str.strip()`. -/
def pyStrip (s : String) : String := ⟨trimChars s.data⟩

/-- Split a character list at every occurrence of `sep` (no merging), the
semantics of Python's `str.split(sep)` for a one-character separator. -/
def splitCharAux (sep : Char) : List Char → List Char → List (List Char)
  | [], acc => [acc.reverse]
  | c :: rest, acc =>
    if c = sep then acc.reverse :: splitCharAux sep rest []
    else splitCharAux sep rest (c :: acc)

/-- Python's `s.split(sep)` for a one-character separator. -/
def pySplit (s : String) (sep : Char) : List String :=
  (splitCharAux sep s.data []).map (fun l => ⟨l⟩)

/-- Parse a run of decimal digits; `none` on any non-digit. -/
def parseNatAux : List Char → Nat → Option Nat
  | [], acc => some acc
  | c :: rest, acc =>
    if c.isDigit then parseNatAux rest (acc * 10 + (c.toNat - 48)) else none

/-- Parse a non-empty all-digit character list as a `Nat`. -/
def parseNatDigits (l : List Char) : Option Nat :=
  if l.isEmpty then none else parseNatAux l 0

/-- Python's `date.fromisoformat`: accepts exactly `YYYY-MM-DD` with a valid
month and day, returning the ordinal; `none` models the raised `ValueError`. -/
def parseIsoDate (s : String) : Option Nat :=
  match pySplit s '-' with
  | [y, m, d] =>
    if y.data.length = 4 ∧ m.data.length = 2 ∧ d.data.length = 2 then
      match parseNatDigits y.data, parseNatDigits m.data, parseNatDigits d.data with
      | some yy, some mm, some dd =>
        if 1 ≤ yy ∧ 1 ≤ mm ∧ mm ≤ 12 ∧ 1 ≤ dd ∧ dd ≤ daysInMonth yy mm then
          some (ordinalOfDate yy mm dd)
        else none
      | _, _, _ => none
    else none
  | _ => none

/-- Sequence a list of optional values; `none` as soon as one entry is `none`
(a list comprehension whose body may raise). -/
def seqOpt : List (Option Nat) → Option (List Nat)
  | [] => some []
  | none :: _ => none
  | some d :: rest =>
    match seqOpt rest with
    | none => none
    | some ds => some (d :: ds)

/-- The comprehension
`[dt.date.fromisoformat(d.strip()) for d in str(existing).split(",")]` of
`_remove_week_dates`: `none` models the uncaught `ValueError` on a malformed
entry. -/
def parseEntries (s : String) : Option (List Nat) :=
  seqOpt ((pySplit s ',').map (fun e => parseIsoDate (pyStrip e)))

/-- Python's `", ".join(...)`. -/
def joinCommaSpace : List String → String
  | [] => ""
  | [s] => s
  | s :: rest => s ++ ", " ++ joinCommaSpace rest

/-- The final line of `_remove_week_dates`:
`", ".join(d.isoformat() for d in dates) if dates else None`. -/
def joinKept (kept : List Nat) : Option String :=
  if kept.isEmpty then none else some (joinCommaSpace (kept.map isoFormat))

/-- `_remove_week_dates(existing, week_dates)` from the source.  The outer
`Option` is the control flow: `none` means the call raises (`ValueError` from
`date.fromisoformat` on an unparseable entry), `some cell` is the returned
cell value (`none` = Python `None`). -/
def remove_week_dates (existing : Option String) (week_dates : List Nat) :
    Option (Option String) :=
  match existing with
  | none => some none
  | some s =>
    match parseEntries s with
    | none => none
    | some ds => some (joinKept (ds.filter (fun d => decide (d ∉ week_dates))))

/-- `_concat_date(existing, new_date)` from the source.  Note: membership is
tested against `existing.split(",")` while entries are joined with `", "`. -/
def concat_date (existing : Option String) (new_date : Option String) : Option String :=
  match new_date with
  | none => existing
  | some nd =>
    match existing with
    | none => some nd
    | some e =>
      if nd ∈ pySplit (pyStrip e) ',' then some (pyStrip e)
      else some (pyStrip e ++ ", " ++ nd)

/-- `strptime(week_id + "-1", "%Y-W%W-%w").date()` from
`_apply_edits_and_save`: parse the week id and rebuild the Monday with the
(non-ISO) `%W` week numbering. -/
def monday_from_week_id (week_id : String) : Option Nat :=
  match pySplit (week_id ++ "-1") '-' with
  | [ys, ws, ds] =>
    match ws.data with
    | 'W' :: wrest =>
      match parseNatDigits ys.data, parseNatDigits wrest, parseNatDigits ds.data with
      | some y, some w, some _ => some (strptime_week_monday y w)
      | _, _, _ => none
    | _ => none
  | _ => none

/-- `next(p for p in pseudo_iter if p not in used_titulars)`: scan the
remaining iterator, returning the first pseudo not in `used` together with the
rest of the iterator; `none` models the uncaught `StopIteration`. -/
def nextNotUsed (used : List String) : List String → Option (String × List String)
  | [] => none
  | p :: rest => if p ∈ used then nextNotUsed used rest else some (p, rest)

/-- `next(p for p in pseudo_iter if p != tit)`: first pseudo different from
`tit`, with the rest of the iterator; `none` models `StopIteration`. -/
def nextNe (tit : String) : List String → Option (String × List String)
  | [] => none
  | p :: rest => if p = tit then nextNe tit rest else some (p, rest)

/-- The date loop of `draw_week`: for each date take a titular (first pseudo
of the shared iterator not already titular) then a substitute (next pseudo
different from that titular), consuming the same iterator throughout. -/
def drawWeekAux : List String → List Nat → List String → Option (List (Nat × String × String))
  | _, [], _ => some []
  | used, d :: ds, pool =>
    match nextNotUsed used pool with
    | none => none
    | some (tit, pool1) =>
      match nextNe tit pool1 with
      | none => none
      | some (sup, pool2) =>
        match drawWeekAux (tit :: used) ds pool2 with
        | none => none
        | some rest => some ((d, tit, sup) :: rest)

/-- `draw_week` from the source, taking the post-`random.shuffle` pseudo list:
walks the 7 dates of the week starting at `week_monday`, pairing each with a
(titular, substitute) drawn from the shared iterator.  `none` models the
uncaught `StopIteration` when the shuffled sequence is exhausted. -/
def draw_week (shuffled : List String) (week_monday : Nat) :
    Option (List (Nat × String × String)) :=
  drawWeekAux [] (week_dates_from week_monday) shuffled

/-- The dates of a drawn schedule (the keys of the `schedule` dict). -/
def schedDates (sched : List (Nat × String × String)) : List Nat :=
  sched.map (fun e => e.1)

/-- The titulars of a drawn schedule, in date order. -/
def schedTitulars (sched : List (Nat × String × String)) : List String :=
  sched.map (fun e => e.2.1)

/-- All handles a drawn schedule consumes, in draw order:
titular then substitute of each successive date. -/
def schedHandles : List (Nat × String × String) → List String
  | [] => []
  | e :: rest => e.2.1 :: e.2.2 :: schedHandles rest

/-- Two schedule entries use four pairwise different handles. -/
def entriesDisjoint (e1 e2 : Nat × String × String) : Prop :=
  e1.2.1 ≠ e2.2.1 ∧ e1.2.1 ≠ e2.2.2 ∧ e1.2.2 ≠ e2.2.1 ∧ e1.2.2 ≠ e2.2.2

/-- One row of the `Tirages` sheet: (Semaine, Date, Titulaire, Suppléant). -/
abbrev Row := String × String × String × String

/-- One row of the `Membres` sheet: pseudo, the `Motif sortie` cell (empty
string models NA) and the `Date du train` cell (`none` models NA). -/
structure Player where
  pseudo : String
  motifSortie : String
  dateDuTrain : Option String
deriving DecidableEq

/-- `append_tirages_rows` from the source: appends the rows to the `Tirages`
sheet (created empty when absent) unconditionally — there is no check. -/
def append_tirages_rows (rows : List Row) (ledger : List Row) : List Row :=
  ledger ++ rows

/-- `week_exists` from the source: `week_id in df["Semaine"].unique()`. -/
def week_exists (ledger : List Row) (week_id : String) : Bool :=
  decide (week_id ∈ ledger.map (fun r => r.1))

/-- `eligible_players` from the source:
`df[df["Motif sortie"].fillna("").str.strip() == ""]`. -/
def eligible_players (players : List Player) : List Player :=
  players.filter (fun p => decide (pyStrip p.motifSortie = ""))

/-- Python dict lookup for an association list built left to right
(later bindings win, as in a dict comprehension). -/
def dictLookup (l : List (String × String)) (k : String) : Option String :=
  match l with
  | [] => none
  | (a, b) :: rest =>
    match dictLookup rest k with
    | some v => some v
    | none => if a = k then some b else none

/-- The sidebar draw handler (source lines 189-212), state passed explicitly:
check `len(elig_df) < 14` first; on success `draw_week`, append the rows of
the week to the `Tirages` sheet and concat each titular's date into the
`Date du train` column.  The first component is `none` on failure, in which
case ledger and roster are returned unchanged. -/
def generate_week_handler (players : List Player) (shuffled : List String)
    (monday : Nat) (ledger : List Row) :
    Option (List Row) × List Row × List Player :=
  if (eligible_players players).length < 14 then (none, ledger, players)
  else
    match draw_week shuffled monday with
    | none => (none, ledger, players)
    | some sched =>
      let rows : List Row :=
        sched.map (fun e => (week_id_for_date monday, isoFormat e.1, e.2.1, e.2.2))
      let dateMap : List (String × String) := sched.map (fun e => (e.2.1, isoFormat e.1))
      let players' := players.map (fun p =>
        match dictLookup dateMap p.pseudo with
        | some nd => { p with dateDuTrain := concat_date p.dateDuTrain (some nd) }
        | none => p)
      (some rows, append_tirages_rows rows ledger, players')

/-- Clearing the `Date du train` column: `df["Date du train"] = pd.NA`. -/
def clearDates (players : List Player) : List Player :=
  players.map (fun p => { p with dateDuTrain := none })

/-- `clear_tirages_sheet_and_dates` from the source: remove the `Tirages`
sheet entirely and blank the `Date du train` column. -/
def clear_tirages_sheet_and_dates (_ledger : List Row) (players : List Player) :
    List Row × List Player :=
  ([], clearDates players)

/-- The sidebar reset handler (source lines 219-226): perform the clear only
when the typed confirmation equals the literal `"CONFIRMER"`; otherwise leave
everything unchanged (a warning is shown, no mutation and no exception). -/
def reset_handler (confirm : String) (ledger : List Row) (players : List Player) :
    List Row × List Player :=
  if confirm = "CONFIRMER" then clear_tirages_sheet_and_dates ledger players
  else (ledger, players)

/-- A concrete eligible pool of 14 pairwise distinct handles. -/
def pool14 : List String :=
  ["p01", "p02", "p03", "p04", "p05", "p06", "p07",
   "p08", "p09", "p10", "p11", "p12", "p13", "p14"]

/-- The schedule `draw_week pool14 739313` produces (week of Monday
2025-03-03). -/
def sched14 : List (Nat × String × String) :=
  [(739313, "p01", "p02"), (739314, "p03", "p04"), (739315, "p05", "p06"),
   (739316, "p07", "p08"), (739317, "p09", "p10"), (739318, "p11", "p12"),
   (739319, "p13", "p14")]

/-- A concrete one-week ledger. -/
def ledgerEx : List Row := [("2025-W10", "2025-03-03", "P1", "P2")]

/-- A concrete roster with one eligible player and one excluded player. -/
def playersEx : List Player :=
  [⟨"P1", "", none⟩, ⟨"P2", "parti", some "2025-01-01"⟩]

/-- Helper: over a duplicate-free pool of fresh pseudos, the date loop of
`draw_week` succeeds and pairs the dates with consecutive pool elements,
consuming exactly `2 * ds.length` pseudos in order. -/
theorem drawWeekAux_spec (ds : List Nat) :
    ∀ (pool used : List String), pool.Nodup → (∀ p ∈ pool, p ∉ used) →
      2 * ds.length ≤ pool.length →
      ∃ sched, drawWeekAux used ds pool = some sched ∧
        schedDates sched = ds ∧ schedHandles sched = pool.take (2 * ds.length) := by
  induction ds with
  | nil =>
    intro pool used _ _ _
    exact ⟨[], rfl, rfl, by simp [schedHandles]⟩
  | cons d ds ih =>
    intro pool used hnd hused hlen
    cases pool with
    | nil => simp only [List.length_nil, List.length_cons] at hlen; omega
    | cons a tail =>
      cases tail with
      | nil => simp only [List.length_nil, List.length_cons] at hlen; omega
      | cons b rest =>
        have hlen' : 2 * ds.length ≤ rest.length := by
          simp only [List.length_cons] at hlen; omega
        have ha : a ∉ used := hused a (by simp)
        obtain ⟨hanb, hndtail⟩ := List.nodup_cons.mp hnd
        obtain ⟨hbnr, hndrest⟩ := List.nodup_cons.mp hndtail
        have hba : ¬ (b = a) := fun h => hanb (by simp [h])
        have h1 : nextNotUsed used (a :: b :: rest) = some (a, b :: rest) := by
          simp [nextNotUsed, ha]
        have h2 : nextNe a (b :: rest) = some (b, rest) := by
          simp [nextNe, hba]
        have husedrest : ∀ p ∈ rest, p ∉ a :: used := by
          intro p hp
          simp only [List.mem_cons]
          push_neg
          refine ⟨fun h => hanb (List.mem_cons_of_mem b (h ▸ hp)), hused p (by simp [hp])⟩
        obtain ⟨sched, hdr, hdat, hhan⟩ := ih rest (a :: used) hndrest husedrest hlen'
        refine ⟨(d, a, b) :: sched, ?_, ?_, ?_⟩
        · simp [drawWeekAux, h1, h2, hdr]
        · simp only [schedDates, List.map_cons] at hdat ⊢
          rw [hdat]
        · have hlen2 : 2 * (d :: ds).length = 2 * ds.length + 1 + 1 := by
            simp [List.length_cons]; ring
          rw [hlen2, List.take_succ_cons, List.take_succ_cons]
          simp only [schedHandles]
          rw [hhan]

/-- Helper: `draw_week` on a duplicate-free shuffled pool of at least 14
pseudos succeeds and consumes exactly the first 14 pseudos in order. -/
theorem draw_week_spec (shuffled : List String) (m : Nat)
    (hnd : shuffled.Nodup) (hlen : 14 ≤ shuffled.length) :
    ∃ sched, draw_week shuffled m = some sched ∧
      schedDates sched = week_dates_from m ∧
      schedHandles sched = shuffled.take 14 := by
  have h7 : (week_dates_from m).length = 7 := by simp [week_dates_from]
  obtain ⟨sched, h1, h2, h3⟩ :=
    drawWeekAux_spec (week_dates_from m) shuffled [] hnd (by simp) (by rw [h7]; omega)
  refine ⟨sched, h1, h2, ?_⟩
  rw [h3, h7]

/-- Helper: each entry's titular occurs among the consumed handles. -/
theorem tit_mem_schedHandles {sched : List (Nat × String × String)}
    {e : Nat × String × String} (he : e ∈ sched) : e.2.1 ∈ schedHandles sched := by
  induction sched with
  | nil => cases he
  | cons f rest ih =>
    rcases List.mem_cons.mp he with h | h
    · subst h; simp [schedHandles]
    · simp [schedHandles, ih h]

/-- Helper: each entry's substitute occurs among the consumed handles. -/
theorem sup_mem_schedHandles {sched : List (Nat × String × String)}
    {e : Nat × String × String} (he : e ∈ sched) : e.2.2 ∈ schedHandles sched := by
  induction sched with
  | nil => cases he
  | cons f rest ih =>
    rcases List.mem_cons.mp he with h | h
    · subst h; simp [schedHandles]
    · simp [schedHandles, ih h]

/-- Helper: the titular list is a sublist of the consumed-handle list. -/
theorem schedTitulars_sublist (sched : List (Nat × String × String)) :
    List.Sublist (schedTitulars sched) (schedHandles sched) := by
  induction sched with
  | nil => simp [schedTitulars, schedHandles]
  | cons e rest ih =>
    simp only [schedTitulars, List.map_cons, schedHandles]
    exact List.Sublist.cons₂ _ (List.Sublist.cons _ ih)

/-- Helper: distinct consumed handles force titular ≠ substitute per date. -/
theorem schedHandles_nodup_ne {sched : List (Nat × String × String)}
    (h : (schedHandles sched).Nodup) : ∀ e ∈ sched, e.2.1 ≠ e.2.2 := by
  induction sched with
  | nil => intro e he; cases he
  | cons f rest ih =>
    intro e he
    simp only [schedHandles] at h
    obtain ⟨h1, h2⟩ := List.nodup_cons.mp h
    obtain ⟨h2a, h2b⟩ := List.nodup_cons.mp h2
    rcases List.mem_cons.mp he with rfl | hmem
    · exact fun hh => h1 (by simp [hh])
    · exact ih h2b e hmem

/-- Helper: distinct consumed handles make the entries pairwise disjoint. -/
theorem schedHandles_nodup_pairwise {sched : List (Nat × String × String)}
    (h : (schedHandles sched).Nodup) : sched.Pairwise entriesDisjoint := by
  induction sched with
  | nil => exact List.Pairwise.nil
  | cons f rest ih =>
    simp only [schedHandles] at h
    obtain ⟨h1, h2⟩ := List.nodup_cons.mp h
    obtain ⟨h2a, h2b⟩ := List.nodup_cons.mp h2
    refine List.Pairwise.cons ?_ (ih h2b)
    intro e he
    have htm := tit_mem_schedHandles he
    have hsm := sup_mem_schedHandles he
    have hf1 : f.2.1 ∉ schedHandles rest := fun hh => h1 (by simp [hh])
    exact ⟨fun hh => hf1 (hh.symm ▸ htm), fun hh => hf1 (hh.symm ▸ hsm),
           fun hh => h2a (hh.symm ▸ htm), fun hh => h2a (hh.symm ▸ hsm)⟩

/-- Helper: any successful `draw_week` over a permutation of a duplicate-free
pool of at least 14 handles consumes pairwise-distinct handles, namely the
first 14 of the shuffled sequence. -/
theorem draw_week_handles {pool shuffled : List String} {m : Nat}
    {sched : List (Nat × String × String)}
    (hperm : shuffled.Perm pool) (hnd : pool.Nodup) (hlen : 14 ≤ pool.length)
    (hdraw : draw_week shuffled m = some sched) :
    (schedHandles sched).Nodup ∧ schedHandles sched = shuffled.take 14 := by
  have hnd' : shuffled.Nodup := hperm.nodup_iff.mpr hnd
  have hlen' : 14 ≤ shuffled.length := by rw [hperm.length_eq]; exact hlen
  obtain ⟨sched', h1, _, h3⟩ := draw_week_spec shuffled m hnd' hlen'
  have heq : sched' = sched := by rw [hdraw] at h1; exact (Option.some.inj h1).symm
  subst heq
  exact ⟨h3 ▸ hnd'.sublist (List.take_sublist 14 shuffled), h3⟩

/-- Helper: any successful draw over a permuted duplicate-free pool of at
least 14 handles has pairwise disjoint entries. -/
theorem draw_week_pairwiseDisjoint {pool shuffled : List String} {m : Nat}
    {sched : List (Nat × String × String)}
    (hperm : shuffled.Perm pool) (hnd : pool.Nodup) (hlen : 14 ≤ pool.length)
    (hdraw : draw_week shuffled m = some sched) :
    sched.Pairwise entriesDisjoint :=
  schedHandles_nodup_pairwise (draw_week_handles hperm hnd hlen hdraw).1

/-- Helper: extract a `Pairwise` relation at two indexed positions given
through `getElem?`. -/
theorem pairwise_of_getElem? {R : (Nat × String × String) → (Nat × String × String) → Prop}
    {l : List (Nat × String × String)} (h : l.Pairwise R) {i j : Nat}
    {x y : Nat × String × String} (hij : i < j) (hi : l[i]? = some x)
    (hj : l[j]? = some y) : R x y := by
  obtain ⟨hi', hx⟩ := List.getElem?_eq_some.mp hi
  obtain ⟨hj', hy⟩ := List.getElem?_eq_some.mp hj
  have := List.pairwise_iff_getElem.mp h i j hi' hj' hij
  rwa [hx, hy] at this

/-- Claim C1: for every eligible pool of at least 14 pairwise-distinct handles
(shuffled into an arbitrary permutation) and the 7 consecutive dates of any
week, `draw_week` returns an assignment giving each of the 7 dates a
(titular, substitute) pair such that no handle appears as titular on more
than one date and, for each date, the titular differs from that date's
substitute. -/
theorem C1_draw_week_no_repeat_titular (pool shuffled : List String) (m : Nat)
    (hperm : shuffled.Perm pool) (hnd : pool.Nodup) (hlen : 14 ≤ pool.length) :
    ∃ sched, draw_week shuffled m = some sched ∧
      schedDates sched = week_dates_from m ∧
      (schedTitulars sched).Nodup ∧
      ∀ e ∈ sched, e.2.1 ≠ e.2.2 := by
  have hnd' : shuffled.Nodup := hperm.nodup_iff.mpr hnd
  have hlen' : 14 ≤ shuffled.length := by rw [hperm.length_eq]; exact hlen
  obtain ⟨sched, h1, h2, h3⟩ := draw_week_spec shuffled m hnd' hlen'
  have hhn : (schedHandles sched).Nodup :=
    h3 ▸ hnd'.sublist (List.take_sublist 14 shuffled)
  exact ⟨sched, h1, h2, hhn.sublist (schedTitulars_sublist sched),
    schedHandles_nodup_ne hhn⟩

/-- Witness for C1: the concrete pool of 14 distinct handles drawn for the
week of Monday 2025-03-03 (ordinal 739313). -/
theorem C1_witness :
    ∃ sched, draw_week pool14 739313 = some sched ∧
      schedDates sched = week_dates_from 739313 ∧
      (schedTitulars sched).Nodup ∧
      ∀ e ∈ sched, e.2.1 ≠ e.2.2 :=
  C1_draw_week_no_repeat_titular pool14 pool14 739313 (List.Perm.refl pool14)
    (by decide) (by decide)

/-- Claim C2 is false as stated: after a first append makes week 2025-W10
exist in the ledger, a second `append_tirages_rows` call with the same week
identifier is not rejected — it changes the ledger (duplicating the rows)
instead of leaving it equal to the content after the first call alone. -/
theorem C2_counterexample :
    week_exists (append_tirages_rows [("2025-W10", "2025-03-03", "P1", "P2")] [])
      "2025-W10" = true ∧
    append_tirages_rows [("2025-W10", "2025-03-03", "P1", "P2")]
        (append_tirages_rows [("2025-W10", "2025-03-03", "P1", "P2")] []) ≠
      append_tirages_rows [("2025-W10", "2025-03-03", "P1", "P2")] [] := by
  exact ⟨by decide, by decide⟩

/-- Claim C2 (amended): `append_tirages_rows` performs no duplicate-week
check at write time: even when the Week Identifier is already present in the
ledger, the call succeeds unconditionally, appends the row again and changes
the ledger, after which the week identifier is present in duplicate; the only
duplicate-week guard in the source is the UI's filtering of selectable weeks
at listing time. -/
theorem C2_amended_append_unchecked (ledger : List Row) (r : Row)
    (_h : week_exists ledger r.1 = true) :
    append_tirages_rows [r] ledger = ledger ++ [r] ∧
    append_tirages_rows [r] ledger ≠ ledger ∧
    week_exists (append_tirages_rows [r] ledger) r.1 = true := by
  refine ⟨rfl, ?_, ?_⟩
  · intro hcontra
    have := congrArg List.length hcontra
    simp [append_tirages_rows] at this
  · simp only [week_exists, append_tirages_rows, decide_eq_true_eq]
    exact List.mem_map.mpr ⟨r, by simp, rfl⟩

/-- Witness for C2 (amended) at a concrete one-week ledger. -/
theorem C2_witness :
    append_tirages_rows [("2025-W10", "2025-03-04", "P3", "P4")] ledgerEx =
      ledgerEx ++ [("2025-W10", "2025-03-04", "P3", "P4")] ∧
    append_tirages_rows [("2025-W10", "2025-03-04", "P3", "P4")] ledgerEx ≠ ledgerEx ∧
    week_exists (append_tirages_rows [("2025-W10", "2025-03-04", "P3", "P4")] ledgerEx)
      ("2025-W10", "2025-03-04", "P3", "P4").1 = true :=
  C2_amended_append_unchecked ledgerEx ("2025-W10", "2025-03-04", "P3", "P4") (by decide)

/-- Claim C3: whenever fewer than 14 players are eligible, the draw handler
fails before any drawing starts — no schedule is produced, and the ledger and
every player's `Date du train` cell are returned unchanged. -/
theorem C3_insufficient_pool_aborts (players : List Player) (shuffled : List String)
    (monday : Nat) (ledger : List Row)
    (h : (eligible_players players).length < 14) :
    generate_week_handler players shuffled monday ledger = (none, ledger, players) := by
  simp [generate_week_handler, h]

/-- Witness for C3: a roster with a single eligible player. -/
theorem C3_witness :
    generate_week_handler playersEx pool14 739313 [] = (none, [], playersEx) :=
  C3_insufficient_pool_aborts playersEx pool14 739313 [] (by decide)

/-- Claim C4 is false in its reuse part: over a pairwise-distinct pool there
is NO possible outcome of `draw_week` in which a handle drawn as substitute
on an earlier date serves again, as substitute or titular, on a later date of
the same batch — the shared iterator never revisits a consumed pseudo. -/
theorem C4_counterexample :
    ¬ ∃ (pool shuffled : List String) (m i j : Nat)
        (sched : List (Nat × String × String)) (ei ej : Nat × String × String),
        shuffled.Perm pool ∧ pool.Nodup ∧ 14 ≤ pool.length ∧
        draw_week shuffled m = some sched ∧ i < j ∧
        sched[i]? = some ei ∧ sched[j]? = some ej ∧
        (ei.2.2 = ej.2.1 ∨ ei.2.2 = ej.2.2) := by
  rintro ⟨pool, shuffled, m, i, j, sched, ei, ej, hperm, hnd, hlen, hdraw, hij, hi, hj, hre⟩
  have hdisj := pairwise_of_getElem? (draw_week_pairwiseDisjoint hperm hnd hlen hdraw) hij hi hj
  rcases hre with h | h
  · exact hdisj.2.2.1 h
  · exact hdisj.2.2.2 h

/-- Claim C4 (amended): within a single `draw_week` batch over a
pairwise-distinct pool, a participant consumed as titular or substitute on an
earlier date is never drawn again on a later date in either role: it is
indeed never reconsidered as titular, and — contrary to the claim's second
half — it does not remain available as substitute either, nor can an earlier
substitute later become titular: the four handles of any two dates are
pairwise distinct. -/
theorem C4_amended_consumed_never_reused (pool shuffled : List String) (m i j : Nat)
    (sched : List (Nat × String × String)) (ei ej : Nat × String × String)
    (hperm : shuffled.Perm pool) (hnd : pool.Nodup) (hlen : 14 ≤ pool.length)
    (hdraw : draw_week shuffled m = some sched) (hij : i < j)
    (hi : sched[i]? = some ei) (hj : sched[j]? = some ej) :
    ei.2.1 ≠ ej.2.1 ∧ ei.2.1 ≠ ej.2.2 ∧ ei.2.2 ≠ ej.2.1 ∧ ei.2.2 ≠ ej.2.2 :=
  pairwise_of_getElem? (draw_week_pairwiseDisjoint hperm hnd hlen hdraw) hij hi hj

/-- Witness for C4 (amended): dates 0 and 1 of the concrete draw. -/
theorem C4_witness :
    ((739313, "p01", "p02") : Nat × String × String).2.1 ≠
      ((739314, "p03", "p04") : Nat × String × String).2.1 ∧
    ((739313, "p01", "p02") : Nat × String × String).2.1 ≠
      ((739314, "p03", "p04") : Nat × String × String).2.2 ∧
    ((739313, "p01", "p02") : Nat × String × String).2.2 ≠
      ((739314, "p03", "p04") : Nat × String × String).2.1 ∧
    ((739313, "p01", "p02") : Nat × String × String).2.2 ≠
      ((739314, "p03", "p04") : Nat × String × String).2.2 :=
  C4_amended_consumed_never_reused pool14 pool14 739313 0 1 sched14
    (739313, "p01", "p02") (739314, "p03", "p04") (List.Perm.refl pool14)
    (by decide) (by decide) (by decide) (by decide) (by decide) (by decide)

/-- Claim C5: the reset handler with the expected confirmation constant
`"CONFIRMER"` empties the whole assignment history and clears every player's
`Date du train`; with any other confirmation value it is a no-op (a warning
is displayed, nothing is mutated, no error is raised). -/
theorem C5_reset_confirmation_guard (ledger : List Row) (players : List Player)
    (c : String) (hc : c ≠ "CONFIRMER") :
    reset_handler "CONFIRMER" ledger players = ([], clearDates players) ∧
    (∀ p ∈ (reset_handler "CONFIRMER" ledger players).2, p.dateDuTrain = none) ∧
    reset_handler c ledger players = (ledger, players) := by
  refine ⟨by simp [reset_handler, clear_tirages_sheet_and_dates], ?_,
    by simp [reset_handler, hc]⟩
  intro p hp
  simp [reset_handler, clear_tirages_sheet_and_dates, clearDates, List.mem_map] at hp
  obtain ⟨q, hq, rfl⟩ := hp
  rfl

/-- Witness for C5 at a concrete ledger, roster and wrong confirmation. -/
theorem C5_witness :
    reset_handler "CONFIRMER" ledgerEx playersEx = ([], clearDates playersEx) ∧
    (∀ p ∈ (reset_handler "CONFIRMER" ledgerEx playersEx).2, p.dateDuTrain = none) ∧
    reset_handler "NON" ledgerEx playersEx = (ledgerEx, playersEx) :=
  C5_reset_confirmation_guard ledgerEx playersEx "NON" (by decide)

/-- Claim C6 (code bug): for the week 2025-W10 — stored by the draw for the
ISO week of Monday 2025-03-03 (ordinal 739313) — the edit path's Monday
reconstruction via `strptime(week_id + "-1", "%Y-W%W-%w")` yields 2025-03-10
(ordinal 739320), one week late; Wednesday 2025-03-05 (ordinal 739315) of
the edited week therefore lies outside the span the edit clears, and
`_remove_week_dates` keeps the old titular's served date instead of removing
it. -/
theorem C6_edit_week_clears_wrong_span :
    week_id_for_date 739313 = "2025-W10" ∧
    week_id_for_date 739315 = "2025-W10" ∧
    monday_of_week 739315 = 739313 ∧
    monday_from_week_id "2025-W10" = some 739320 ∧
    739315 ∉ week_dates_from 739320 ∧
    remove_week_dates (some "2025-03-05") (week_dates_from 739320) =
      some (some "2025-03-05") := by
  refine ⟨by decide, by decide, by decide, by decide, by decide, by decide⟩

/-- Claim C7 is false in its tolerance part: one malformed legacy entry makes
`_remove_week_dates` raise (uncaught `ValueError` from `date.fromisoformat`)
instead of leaving the entry untouched and completing. -/
theorem C7_counterexample :
    remove_week_dates (some "2025-03-05, legacy") (week_dates_from 739313) = none := by
  decide

/-- Claim C7 (amended): when every entry of the served-dates cell parses as
an ISO date, `_remove_week_dates` removes exactly the entries falling inside
the given week span — an entry is kept iff it is outside the span — rejoining
the kept dates (`None` when all are removed); an NA cell passes through; but
an unparseable legacy entry is NOT tolerated: the call raises instead of
completing. -/
theorem C7_remove_week_dates_exact_or_raise (s : String) (wd : List Nat) :
    remove_week_dates none wd = some none ∧
    (∀ ds, parseEntries s = some ds →
      remove_week_dates (some s) wd =
        some (joinKept (ds.filter (fun d => decide (d ∉ wd)))) ∧
      ∀ d, d ∈ ds.filter (fun d => decide (d ∉ wd)) ↔ d ∈ ds ∧ d ∉ wd) ∧
    (parseEntries s = none → remove_week_dates (some s) wd = none) := by
  refine ⟨rfl, ?_, ?_⟩
  · intro ds hds
    refine ⟨by simp [remove_week_dates, hds], ?_⟩
    intro d
    simp [List.mem_filter]
  · intro h
    simp [remove_week_dates, h]

/-- Witness for C7 (amended): a two-entry cell against the span of the week
of Monday 2025-03-03; the in-week entry 2025-03-05 is removed and 2025-03-10
is kept. -/
theorem C7_witness :
    remove_week_dates (some "2025-03-05, 2025-03-10") (week_dates_from 739313) =
      some (joinKept ([739315, 739320].filter
        (fun d => decide (d ∉ week_dates_from 739313)))) :=
  (((C7_remove_week_dates_exact_or_raise "2025-03-05, 2025-03-10"
    (week_dates_from 739313)).2.1) [739315, 739320] (by decide)).1

/-- Claim C8 (code bug): `_concat_date` is not an idempotent insert.  Entries
are joined with ", " but membership is tested against `existing.split(",")`,
whose non-first items keep a leading space, so a date already present
anywhere but in first position is missed by the test and appended a second
time; only a first-position date is left unchanged. -/
theorem C8_concat_date_duplicates :
    concat_date (some "2025-03-03, 2025-03-10") (some "2025-03-10") =
      some "2025-03-03, 2025-03-10, 2025-03-10" ∧
    concat_date (some "2025-03-10") (some "2025-03-10") = some "2025-03-10" := by
  exact ⟨by decide, by decide⟩

/-- Claim C9 is false in its first-element part: with today the Tuesday of
ordinal 2, `upcoming_week_mondays` starts at ordinal 8, which is neither
strictly after today + 7 (= 9) nor at least one full week ahead of today. -/
theorem C9_counterexample :
    weekday 2 = 1 ∧
    (upcoming_week_mondays 52 2)[0]? = some 8 ∧
    ¬ (2 + 7 < 8) ∧ ¬ (2 + 7 ≤ 8) := by
  refine ⟨by decide, by decide, by decide, by decide⟩

/-- Claim C9 (amended): `upcoming_week_mondays n today` returns exactly `n`
Monday dates spaced exactly 7 days apart; the first is the Monday of the week
containing today + 7 — the Monday of the calendar week immediately after
today's — which falls strictly after today but at most 7 days ahead, not
necessarily strictly after today + 7. -/
theorem C9_amended_mondays (n today : Nat) :
    (upcoming_week_mondays n today).length = n ∧
    (∀ i, i < n → (upcoming_week_mondays n today)[i]? =
      some (monday_of_week (today + 7) + 7 * i)) ∧
    weekday (monday_of_week (today + 7)) = 0 ∧
    today < monday_of_week (today + 7) ∧
    monday_of_week (today + 7) ≤ today + 7 := by
  have hmod : (today + 7 - 1) % 7 < 7 := Nat.mod_lt _ (by omega)
  have hdm : 7 * ((today + 7 - 1) / 7) + (today + 7 - 1) % 7 = today + 7 - 1 :=
    Nat.div_add_mod _ _
  refine ⟨by simp [upcoming_week_mondays], ?_, ?_, ?_, ?_⟩
  · intro i hi
    simp [upcoming_week_mondays, List.getElem?_map, List.getElem?_range, hi]
  · simp only [monday_of_week, weekday]
    have h : today + 7 - (today + 7 - 1) % 7 - 1 = 7 * ((today + 7 - 1) / 7) := by
      omega
    rw [h, Nat.mul_mod_right]
  · simp only [monday_of_week, weekday]; omega
  · simp only [monday_of_week, weekday]; omega

/-- Witness for C9 (amended) at `n = 3`, `today = 2`. -/
theorem C9_witness :
    (upcoming_week_mondays 3 2).length = 3 ∧
    (upcoming_week_mondays 3 2)[0]? = some (monday_of_week (2 + 7) + 7 * 0) :=
  ⟨(C9_amended_mondays 3 2).1, (C9_amended_mondays 3 2).2.1 0 (by decide)⟩

/-- Claim C10 (implicit): for every pairwise-distinct pool of at least 14
handles and the 7 dates of a week, all 14 handles `draw_week` selects — the
7 titulars together with the 7 substitutes — are pairwise distinct: no
substitute repeats across dates and no participant serves in two roles
within the same batch. -/
theorem C10_fourteen_selected_distinct (pool shuffled : List String) (m : Nat)
    (sched : List (Nat × String × String))
    (hperm : shuffled.Perm pool) (hnd : pool.Nodup) (hlen : 14 ≤ pool.length)
    (hdraw : draw_week shuffled m = some sched) :
    (schedHandles sched).Nodup ∧ (schedHandles sched).length = 14 := by
  obtain ⟨hn, he⟩ := draw_week_handles hperm hnd hlen hdraw
  refine ⟨hn, ?_⟩
  have hlen' : 14 ≤ shuffled.length := by rw [hperm.length_eq]; exact hlen
  rw [he, List.length_take]
  omega

/-- Witness for C10: the concrete draw consumes 14 pairwise-distinct handles. -/
theorem C10_witness :
    (schedHandles sched14).Nodup ∧ (schedHandles sched14).length = 14 :=
  C10_fourteen_selected_distinct pool14 pool14 739313 sched14 (List.Perm.refl pool14)
    (by decide) (by decide) (by decide)
